import Mathlib

/-!
Verification development for the xpybuild dependency-graph / incremental-build core
(`internal/targetwrapper.py` and `xpybuild/targets/custom.py`).

Strings are modelled as `List Char` so that the character-level operations the source
relies on (`str.split(sep)`, `sep.join(list)`, `str.replace(old, new)`) can be given
faithful executable definitions.  The platform is modelled as POSIX: `os.linesep` is
the single character `'\n'` and `os.path.sep` is `'/'`.
-/

namespace XpyBuild

/-- A Python string, modelled as its list of characters. -/
abbrev Str := List Char

/-- `os.linesep`, modelled for the POSIX platform the build runs on. -/
def NL : Char := '\n'

/-- The carriage-return character `'\r'`. -/
def CR : Char := '\r'

/-- Python `s.split(sep)` for a single-character separator `sep`:
splits at every occurrence of `sep`; the empty string yields `[""]`. -/
def splitSep (sep : Char) : Str → List Str
  | [] => [[]]
  | c :: rest =>
    if c = sep then [] :: splitSep sep rest
    else
      match splitSep sep rest with
      | [] => [[c]]
      | r :: rs => (c :: r) :: rs

/-- Python `sep.join(l)` for a single-character separator. -/
def joinSep (sep : Char) : List Str → Str
  | [] => []
  | [s] => s
  | s :: rest => s ++ sep :: joinSep sep rest

/-- Python `s.replace(old, new)` where `old` is a single character. -/
def replaceChar (c : Char) (r : Str) : Str → Str
  | [] => []
  | a :: rest => if a = c then r ++ replaceChar c r rest else a :: replaceChar c r rest

/-! ## Path model -/

/-- Modelled from the spec: directory-ness is determined syntactically — a path whose
textual form ends in a separator is a directory path (`xpybuild.utils.fileutils.isDirPath`
is not under `src/`; only its use sites are).  On POSIX the separators are `'/'` and the
literal backslash accepted by the source tree for portability. -/
def isDirPath (p : Str) : Bool :=
  match p.getLast? with
  | some c => (c == '/') || (c == '\\')
  | none => false

/-- Modelled from the spec: canonicalise to a long-path-safe absolute form
(`xpybuild.utils.fileutils.toLongPathSafe` is not under `src/`).  On POSIX this is the
identity; the `\\?\` prefixing only exists on Windows. -/
def toLongPathSafe (p : Str) : Str := p

/-! ## TargetWrapper data model (`internal/targetwrapper.py`) -/

/-- The per-target data the core caches from the external target:
canonical name, absolute output path, and the target's work directory. -/
structure TargetInfo where
  name : Str
  path : Str
  workDir : Str
deriving DecidableEq, Repr

/-- `TargetWrapper.__getImplicitInputsFile` (targetwrapper.py:113-116): split the work
directory on `'/'` (after normalising backslashes) and place the fingerprint file in a
sibling `implicit-inputs/` directory named after the work directory's basename. -/
def getImplicitInputsFileOf (workDir : Str) : Str :=
  let x := splitSep '/' (replaceChar '\\' ['/'] workDir)
  joinSep '/' x.dropLast ++ ('/' :: ("implicit-inputs/".data)) ++ x.getLastD [] ++ ".txt".data

/-- `self.isDirPath = isDirPath(target.name)` (targetwrapper.py:60). -/
def TargetInfo.isDirPath (t : TargetInfo) : Bool := XpyBuild.isDirPath t.name

/-- `self.__implicitInputsFile = self.__getImplicitInputsFile()` (targetwrapper.py:92). -/
def TargetInfo.implicitInputsFile (t : TargetInfo) : Str := getImplicitInputsFileOf t.workDir

/-- `self.stampfile` (targetwrapper.py:93-96): the implicit-inputs file for directory
targets, the output path itself for file targets. -/
def TargetInfo.stampfile (t : TargetInfo) : Str :=
  if t.isDirPath then t.implicitInputsFile else t.path

/-- Flag `TargetWrapper.DEP_IS_DIR_PATH = 2**1` (targetwrapper.py:46). -/
def DEP_IS_DIR_PATH : Nat := 2

/-- Flag `TargetWrapper.DEP_SKIP_EXISTENCE_CHECK = 2**2` (targetwrapper.py:48). -/
def DEP_SKIP_EXISTENCE_CHECK : Nat := 4

/-- A `TargetWrapper` after dependency resolution, holding the state `uptodate`/`run`
read: the cached target data, the target's `getHashableImplicitInputs(context)` result
(the context is opaque, so the list is carried as data), the resolved target deps
(`__targetdeps`, sorted by name), the resolved non-target deps (`__nontargetdeps`,
`(longpathsafe path, flags)` pairs sorted by path; the originating pathset is dropped as
no modelled operation reads it), and the sticky dirty flag. -/
structure Wrapper extends TargetInfo where
  hashableImplicitInputs : List Str
  targetdeps : List TargetInfo
  nontargetdeps : List (Str × Nat)
  isdirty : Bool
deriving DecidableEq, Repr

def Wrapper.isDirPath (w : Wrapper) : Bool := w.toTargetInfo.isDirPath
def Wrapper.implicitInputsFile (w : Wrapper) : Str := w.toTargetInfo.implicitInputsFile
def Wrapper.stampfile (w : Wrapper) : Str := w.toTargetInfo.stampfile

/-- The CR/LF escaping applied to each fingerprint line
(`x.replace('\r','\\r').replace('\n','\\n')`, targetwrapper.py:133). -/
def escapeLine (s : Str) : Str :=
  replaceChar NL ['\\', 'n'] (replaceChar CR ['\\', 'r'] s)

/-- `TargetWrapper.__getImplicitInputs` (targetwrapper.py:118-137): target dep paths,
then non-target dep paths, then the hashable implicit inputs normalised with an
`os.linesep` join→split and CR/LF escaping.  (The source memoises the result in
`self.__implicitInputs`; the computation itself is pure, so the cache is not modelled.) -/
def Wrapper.getImplicitInputs (w : Wrapper) : List Str :=
  w.targetdeps.map TargetInfo.path ++ w.nontargetdeps.map Prod.fst ++
    (splitSep NL (joinSep NL w.hashableImplicitInputs)).map escapeLine

/-- What `run` writes to the implicit inputs file:
`os.linesep.join(implicitInputs)` (targetwrapper.py:408). -/
def Wrapper.writtenFingerprint (w : Wrapper) : Str := joinSep NL w.getImplicitInputs

/-- How `uptodate` parses the implicit inputs file it read back:
`f.read().split(os.linesep)` (targetwrapper.py:325). -/
def readFingerprint (contents : Str) : List Str := splitSep NL contents

/-! ## Filesystem model -/

/-- What `os.stat` reports a path to be. -/
inductive FileKind where
  | regular
  | directory
  | other
deriving DecidableEq, Repr

/-- An abstract snapshot of the filesystem: `stat` result per path (`none` = the path
does not exist / stat raises), modification times, and regular-file contents.
`mtime p` and `contents p` are only meaningful where `stat` says so. -/
structure FS where
  stat : Str → Option FileKind
  mtime : Str → ℚ
  contents : Str → Str

/-- `os.path.exists` / `fileutils.exists`: stat succeeds. -/
def FS.pathExists (fs : FS) (p : Str) : Bool := (fs.stat p).isSome

/-- `fileutils.isfile`: the path is a regular file. -/
def FS.isfile (fs : FS) (p : Str) : Bool := fs.stat p == some FileKind.regular

/-- `fileutils.deleteFile`: afterwards the path does not exist.  (Stale `contents` of a
deleted path are unobservable: every modelled read is guarded by an existence check or
follows a fresh write.) -/
def FS.deleteFile (fs : FS) (p : Str) : FS :=
  { fs with stat := fun q => if q = p then none else fs.stat q }

/-- `openForWrite(path,'wb')` + `write(data)`: afterwards the path is a regular file
with the given contents.  (The new file's mtime is left unmodelled: no claim under
verification observes the mtime of a freshly written fingerprint file.) -/
def FS.writeFile (fs : FS) (p : Str) (data : Str) : FS :=
  { stat := fun q => if q = p then some FileKind.regular else fs.stat q
    mtime := fs.mtime
    contents := fun q => if q = p then data else fs.contents q }

/-! ## Up-to-date oracle (`TargetWrapper.uptodate`, targetwrapper.py:287-373) -/

/-- The body of `isNewer` (targetwrapper.py:349-357): an input is newer iff its mtime is
strictly greater than the stampfile mtime; a gap below one second changes only the log
level (warning instead of info), not the verdict. -/
def isNewer (fs : FS) (stampmodtime : ℚ) (p : Str) : Bool :=
  decide (stampmodtime < fs.mtime p)

/-- Step 6 of `uptodate` (targetwrapper.py:347-372): compare the stampfile mtime against
every target dep (by `path` for file targets, by `stampfile` for directory targets) and
every non-target dep without the `DEP_IS_DIR_PATH` flag.  Returns `true` when nothing is
newer. -/
def Wrapper.mtimeChecks (fs : FS) (w : Wrapper) : Bool :=
  let stampmodtime := fs.mtime w.stampfile
  !(w.targetdeps.any (fun d =>
      isNewer fs stampmodtime
        (toLongPathSafe (if !d.isDirPath then d.path else d.stampfile))) ||
    w.nontargetdeps.any (fun pr =>
      ((pr.2 &&& DEP_IS_DIR_PATH) == 0) && isNewer fs stampmodtime pr.1))

/-- `TargetWrapper.uptodate(context, ignoreDeps)` (targetwrapper.py:287-373).  The
mutation `self.__isdirty = True` on a missing path (line 305) only suppresses repeat
logging — the path is still missing on any later call, which returns `False` anyway —
so the oracle is modelled as a pure function of the wrapper and filesystem snapshot. -/
def Wrapper.uptodate (w : Wrapper) (fs : FS) (ignoreDeps : Bool) : Bool :=
  if w.isdirty then false
  else if !fs.pathExists w.path then false
  else if ignoreDeps then true
  else if !fs.isfile w.stampfile then false
  else if !w.getImplicitInputs.isEmpty || w.isDirPath then
    if !fs.pathExists w.implicitInputsFile then false
    else if readFingerprint (fs.contents (toLongPathSafe w.implicitInputsFile)) ≠
        w.getImplicitInputs then false
    else w.mtimeChecks fs
  else w.mtimeChecks fs

/-! ## Build orchestration (`TargetWrapper.run`, targetwrapper.py:392-408) -/

/-- `TargetWrapper.run(context)` (targetwrapper.py:392-408).  The wrapped
`target.run(context)` is opaque: it is modelled as a state transformer returning the
filesystem it leaves behind and whether it returned normally (`false` = it raised, in
which case the exception propagates and the fingerprint write is never reached).
`mkdir(os.path.dirname(...))` only creates the parent directory of the fingerprint
file, which no modelled observation reads, so it is not modelled. -/
def Wrapper.run (w : Wrapper) (recipe : FS → FS × Bool) (fs : FS) : FS × Bool :=
  let implicitInputs := w.getImplicitInputs
  let fs1 := if !implicitInputs.isEmpty || w.isDirPath then
      fs.deleteFile w.implicitInputsFile
    else fs
  let r := recipe fs1
  if r.2 then
    (if !implicitInputs.isEmpty || w.isDirPath then
        r.1.writeFile (toLongPathSafe w.implicitInputsFile) w.writtenFingerprint
      else r.1, true)
  else (r.1, false)

/-! ## Missing non-target dependency check
(`TargetWrapper.findMissingNonTargetDependencies`, targetwrapper.py:225-247) -/

/-- Result of running `findMissingNonTargetDependencies`: `Except.error p` models the
`AssertionError` raised when `assert not os.path.exists(dpath)` fails (line 245),
`Except.ok r` models a normal return of `r`. -/
def findMissingNonTargetDependencies (fs : FS) : List (Str × Nat) → Except Str (Option Str)
  | [] => Except.ok none
  | (dpath, flags) :: rest =>
    let dnameIsDirPath : Bool := (flags &&& DEP_IS_DIR_PATH) != 0
    if (flags &&& DEP_SKIP_EXISTENCE_CHECK) != 0 then
      findMissingNonTargetDependencies fs rest
    else
      match fs.stat dpath with
      | none =>
        if fs.pathExists dpath then Except.error dpath else Except.ok (some dpath)
      | some k =>
        if (dnameIsDirPath && (k == FileKind.directory)) ||
            (!dnameIsDirPath && (k == FileKind.regular)) then
          findMissingNonTargetDependencies fs rest
        else
          if fs.pathExists dpath then Except.error dpath else Except.ok (some dpath)

/-! ## CustomCommand constructor checks (`xpybuild/targets/custom.py:197-208`) -/

/-- Python truthiness of an optional string argument: `None` and the empty string are
falsy, any other string is truthy. -/
def pyTruthyStr : Option Str → Bool
  | none => false
  | some s => !s.isEmpty

/-- The two `BuildException` conditions of `CustomCommand.__init__` in source order:
`redirectStdOutToTarget` with a directory target name (custom.py:203), then
`redirectStdOutToTarget` together with a truthy `stdout` argument (custom.py:207-208).
`some e` means the constructor raises before the target can ever be run. -/
inductive CustomCommandError where
  | redirectToDirTarget
  | redirectWithStdout
deriving DecidableEq, Repr

def customCommandInitChecks (target : Str) (redirectStdOutToTarget : Bool)
    (stdout : Option Str) : Option CustomCommandError :=
  if redirectStdOutToTarget && isDirPath target then
    some CustomCommandError.redirectToDirTarget
  else if pyTruthyStr stdout && redirectStdOutToTarget then
    some CustomCommandError.redirectWithStdout
  else none

/-! ## Dependency resolver graph
(`TargetWrapper.resolveUnderlyingDependencies`, targetwrapper.py:150-211) -/

/-- A declared target as the resolver sees it: canonical name, absolute output path,
declared priority, and the output of `target._resolveUnderlyingDependencies(context)` —
an ordered sequence of `(absolute path, pathset._skipDependenciesExistenceCheck)` pairs
(the only pathset attribute the resolver reads). -/
structure BTarget where
  name : Str
  path : Str
  priority : Int
  underlying : List (Str × Bool)
deriving DecidableEq, Repr

/-- The build graph: the `scheduler.targetwrappers` map (keyed by absolute output path;
represented as the list of declared targets) and `context.init._targetGroups`
(a map from a member target's path to the paths of the members of its group,
represented as an association list). -/
structure Graph where
  targets : List BTarget
  groups : List (Str × List Str)
deriving DecidableEq, Repr

/-- First-match association-list lookup (a Python `dict` read that may raise
`KeyError`, i.e. return `none`). -/
def assocLookup : List (Str × List Str) → Str → Option (List Str)
  | [], _ => none
  | (k, v) :: rest, p => if k = p then some v else assocLookup rest p

/-- `scheduler.targetwrappers[abspath]` succeeds iff some declared target has this
output path (targetwrapper.py:171). -/
def Graph.isTargetPath (g : Graph) (p : Str) : Bool := g.targets.any (fun t => t.path == p)

/-- `context.init._targetGroups[path]` (targetwrapper.py:194). -/
def Graph.findGroup (g : Graph) (p : Str) : Option (List Str) := assocLookup g.groups p

/-- Lookup of the declared target with a given output path. -/
def lookupTarget : List BTarget → Str → Option BTarget
  | [], _ => none
  | t :: ts, p => if t.path = p then some t else lookupTarget ts p

/-- Insertion into the `targetdeps` dict: a no-op when the path is already a key,
otherwise the path is appended (Python dicts preserve insertion order). -/
def insertDep (acc : List Str) (p : Str) : List Str :=
  if p ∈ acc then acc else acc ++ [p]

/-- The flags computed for a non-target dep (targetwrapper.py:175-179). -/
def mkDepFlags (abspath : Str) (skipExistenceCheck : Bool) : Nat :=
  (if isDirPath abspath then DEP_IS_DIR_PATH else 0) |||
    (if skipExistenceCheck then DEP_SKIP_EXISTENCE_CHECK else 0)

/-- The main resolution loop (targetwrapper.py:168-188): each underlying dependency is
either a target edge (deduplicated by path) or a non-target dep recorded with its flags
and long-path-safe form.  Returns `(targetdeps as ordered key list, nontargetdeps)`. -/
def resolveStep1 (g : Graph) (w : BTarget) : List Str × List (Str × Nat) :=
  w.underlying.foldl
    (fun acc pr =>
      if g.isTargetPath pr.1 then (insertDep acc.1 pr.1, acc.2)
      else (acc.1, acc.2 ++ [(toLongPathSafe pr.1, mkDepFlags pr.1 pr.2)]))
    ([], [])

/-- Target-group expansion (targetwrapper.py:191-202): iterate over a snapshot of the
`targetdeps` keys; for each dep in a group, add every other group member not already
present.  (The source looks each added member up in `scheduler.targetwrappers`, which
raises `KeyError` if a group names an undeclared target — the model is faithful for
graphs whose groups only contain declared target paths.) -/
def groupStep (g : Graph) (acc : List Str) (p : Str) : List Str :=
  match g.findGroup p with
  | none => acc
  | some members =>
    members.foldl (fun acc2 q => if q = p then acc2 else insertDep acc2 q) acc

def groupExpand (g : Graph) (td : List Str) : List Str :=
  td.foldl (groupStep g) td

/-- Every path ever inserted into the `targetdeps` dict during resolution of `w`; each
insertion also registered `w` as a reverse dependency of the inserted target via
`__rdep` (targetwrapper.py:188, 202).  The self-edge removal (line 204-205) happens
*after* these registrations and does not undo them. -/
def registeredDeps (g : Graph) (w : BTarget) : List Str :=
  groupExpand g (resolveStep1 g w).1

/-- Lexicographic comparison of strings by character code point, as Python's `<=` on
`str` orders the `sorted(...)` results. -/
def strLeB : Str → Str → Bool
  | [], _ => true
  | _ :: _, [] => false
  | a :: as, b :: bs => if a.val < b.val then true else if b.val < a.val then false else strLeB as bs

/-- Insert into a sorted list (the model of Python's stable `sorted`). -/
def insSorted (le : α → α → Bool) (x : α) : List α → List α
  | [] => [x]
  | y :: ys => if le x y then x :: y :: ys else y :: insSorted le x ys

/-- Insertion sort modelling Python `sorted(l, key=...)` (only order and multiset
content matter to the verified claims). -/
def sortByKey (le : α → α → Bool) : List α → List α
  | [] => []
  | x :: xs => insSorted le x (sortByKey le xs)

/-- The name of the declared target at a path (used as `sorted`'s key,
`lambda wrapper: wrapper.name`, targetwrapper.py:211). -/
def Graph.nameOf (g : Graph) (p : Str) : Str :=
  match lookupTarget g.targets p with
  | some t => t.name
  | none => []

/-- The `targetdeps` key list after the self-edge removal (targetwrapper.py:204-205),
before sorting.  `self.depcount = len(targetdeps)` is its length (line 207). -/
def prunedDeps (g : Graph) (w : BTarget) : List Str :=
  (registeredDeps g w).filter (fun p => p ≠ w.path)

/-- `self.depcount = len(targetdeps)` (targetwrapper.py:207). -/
def Graph.depcount (g : Graph) (w : BTarget) : Nat := (prunedDeps g w).length

/-- `self.__targetdeps` after resolution (targetwrapper.py:211): the de-duplicated,
self-pruned target dep paths sorted by target name. -/
def resolvedTargetDeps (g : Graph) (w : BTarget) : List Str :=
  sortByKey (fun p q => strLeB (g.nameOf p) (g.nameOf q)) (prunedDeps g w)

/-- `self.__nontargetdeps` after resolution (targetwrapper.py:210-211), sorted by path. -/
def resolvedNonTargetDeps (g : Graph) (w : BTarget) : List (Str × Nat) :=
  sortByKey (fun a b => strLeB a.1 b.1) (resolveStep1 g w).2

/-- The paths of the wrappers holding `bpath` in `__rdeps` once every wrapper has been
resolved: exactly the wrappers whose resolution inserted `bpath` into their
`targetdeps` dict (each insertion performed one `__rdep` registration). -/
def Graph.rdepPaths (g : Graph) (bpath : Str) : List Str :=
  (g.targets.filter (fun a => bpath ∈ registeredDeps g a)).map BTarget.path

/-- `(g.targets.map (·.path)).Nodup`: output paths are unique — `targetwrappers` is a
dict keyed by path, created once per target during the init pass. -/
def pathsNodup (g : Graph) : Prop := (g.targets.map BTarget.path).Nodup

instance (g : Graph) : Decidable (pathsNodup g) := by unfold pathsNodup; infer_instance

/-- Group map consistency: every member of a recorded group is itself mapped to that
same group.  This is how `_targetGroups` is built (each group is a set of targets, and
every member's path keys that group); the map construction itself is outside `src/`. -/
def groupsConsistent (g : Graph) : Prop :=
  ∀ pr ∈ g.groups, ∀ q ∈ pr.2, assocLookup g.groups q = some pr.2

instance (g : Graph) : Decidable (groupsConsistent g) := by
  unfold groupsConsistent; infer_instance

/-- Every group member is a declared target path (otherwise
`scheduler.targetwrappers[groupmembertargetpath]` raises `KeyError` during resolution,
targetwrapper.py:201, and resolution never completes). -/
def groupMembersDeclared (g : Graph) : Prop :=
  ∀ pr ∈ g.groups, ∀ q ∈ pr.2, g.isTargetPath q = true

instance (g : Graph) : Decidable (groupMembersDeclared g) := by
  unfold groupMembersDeclared; infer_instance

/-! ## Priority push (`TargetWrapper.updatePriority`, targetwrapper.py:376-390) -/

/-- The effective-priority state: each wrapper's `effectivePriority`, keyed by path. -/
abbrev PrioMap := Str → Int

/-- The resolved target deps of the wrapper at a path (empty off the target map). -/
def Graph.depsOf (g : Graph) (p : Str) : List Str :=
  match lookupTarget g.targets p with
  | some t => resolvedTargetDeps g t
  | none => []

/-- The `for dt in deps` loop body of `updatePriority` (targetwrapper.py:386-390):
`tp` is the snapshot of `self.effectivePriority` taken before the loop; each dep whose
effective priority is below `tp` is raised to `tp` and recursively pushed via `recFn`
(the recursive `updatePriority` call at the next fuel level).  `none` = out of fuel. -/
def pushLoop (recFn : Str → PrioMap → Option PrioMap) (tp : Int) :
    List Str → PrioMap → Option PrioMap
  | [], S => some S
  | d :: ds, S =>
    if tp > S d then
      match recFn d (fun q => if q = d then tp else S q) with
      | none => none
      | some S2 => pushLoop recFn tp ds S2
    else pushLoop recFn tp ds S

/-- `TargetWrapper.updatePriority` (targetwrapper.py:376-390), with explicit fuel in
place of the Python call stack (the source recursion terminates because a recursive
call requires a strict priority increase; the fuel makes that termination explicit and
`none` reports exhaustion). -/
def updatePriority (g : Graph) : Nat → Str → PrioMap → Option PrioMap
  | 0, _, _ => none
  | fuel + 1, wpath, S =>
    if (g.depsOf wpath).isEmpty then some S
    else pushLoop (updatePriority g fuel) (S wpath) (g.depsOf wpath) S

/-- Initial effective priorities:
`self.effectivePriority = target.getPriority()` (targetwrapper.py:98). -/
def initPriorities (g : Graph) : PrioMap := fun p =>
  match lookupTarget g.targets p with
  | some t => t.priority
  | none => 0

/-- One step of the scheduler's pre-pass fold: run `updatePriority` for the next
wrapper (propagating fuel exhaustion). -/
def passStep (g : Graph) (fuel : Nat) (acc : Option PrioMap) (t : BTarget) : Option PrioMap :=
  match acc with
  | none => none
  | some S => updatePriority g fuel t.path S

/-- The scheduler's single-threaded pre-pass: run `updatePriority` once for every
wrapper, starting from the declared priorities. -/
def runPriorityPass (g : Graph) (fuel : Nat) : Option PrioMap :=
  g.targets.foldl (passStep g fuel) (some (initPriorities g))

/-! ## Claim-side definitions -/

/-- The fingerprint as claim C2 words it: target dep paths in order, non-target dep
paths in order, then **each element** of `hashableImplicitInputs` with embedded CR
escaped to `\r` and embedded LF escaped to `\n`. -/
def Wrapper.claimedImplicitInputs (w : Wrapper) : List Str :=
  w.targetdeps.map TargetInfo.path ++ w.nontargetdeps.map Prod.fst ++
    w.hashableImplicitInputs.map escapeLine

/-- CR escaping alone (`x.replace('\r','\\r')`); after splitting on the POSIX line
separator no LF can remain, so this is all the escaping that survives. -/
def escapeCR (s : Str) : Str := replaceChar CR ['\\', 'r'] s

/-- The inputs step 6 of `uptodate` compares against the stampfile mtime: each file
target dep by its `path`, each directory target dep by its `stampfile`, and each
non-target dep without the `DEP_IS_DIR_PATH` flag by its own (long-path-safe) path. -/
def Wrapper.step6Inputs (w : Wrapper) : List Str :=
  w.targetdeps.map (fun d => toLongPathSafe (if d.isDirPath then d.stampfile else d.path)) ++
    (w.nontargetdeps.filter (fun pr => (pr.2 &&& DEP_IS_DIR_PATH) == 0)).map Prod.fst

/-! ## Concrete instances used by counterexamples and witnesses -/

/-- A file target whose only hashable implicit input contains an embedded LF. -/
def lfWrapper : Wrapper where
  name := "/o/t".data
  path := "/o/t".data
  workDir := "/o/w/t".data
  hashableImplicitInputs := ["a\nb".data]
  targetdeps := []
  nontargetdeps := []
  isdirty := false

/-- A plain file target with one target dep, one non-target dep and one flag line. -/
def plainWrapper : Wrapper where
  name := "/o/a.o".data
  path := "/o/a.o".data
  workDir := "/o/w/a.o".data
  hashableImplicitInputs := ["cflags=-O2".data]
  targetdeps := [{ name := "/o/b.o".data, path := "/o/b.o".data, workDir := "/o/w/b.o".data }]
  nontargetdeps := [("/src/a.c".data, 0)]
  isdirty := false

/-- A recipe that always raises (models `target.run` throwing). -/
def failingRecipe : FS → FS × Bool := fun g => (g, false)

/-- An empty filesystem snapshot. -/
def emptyFS : FS where
  stat := fun _ => none
  mtime := fun _ => 0
  contents := fun _ => []

/-- A filesystem where the path `/deps/input` is a directory. -/
def dirAtFilePathFS : FS where
  stat := fun p => if p = "/deps/input".data then some FileKind.directory else none
  mtime := fun _ => 0
  contents := fun _ => []

/-- A wrapper's effective priority does not exceed any of its deps' (local
monotonicity at one node). -/
def Settled (g : Graph) (S : PrioMap) (x : Str) : Prop :=
  ∀ d ∈ g.depsOf x, S x ≤ S d


/-- A file target with a fingerprint on disk and one non-target input newer than the
stampfile. -/
def staleWrapper : Wrapper where
  name := "/o/t".data
  path := "/o/t".data
  workDir := "/o/w/t".data
  hashableImplicitInputs := ["flags".data]
  targetdeps := []
  nontargetdeps := [("/src/in.c".data, 0)]
  isdirty := false

/-- Filesystem for `staleWrapper`: everything exists, the stored fingerprint matches,
and the input `/src/in.c` is newer than the stampfile. -/
def staleFS : FS where
  stat := fun p =>
    if p = "/o/t".data then some FileKind.regular
    else if p = "/o/w/implicit-inputs/t.txt".data then some FileKind.regular
    else if p = "/src/in.c".data then some FileKind.regular
    else none
  mtime := fun p => if p = "/src/in.c".data then 11 else 10
  contents := fun p =>
    if p = "/o/w/implicit-inputs/t.txt".data then staleWrapper.writtenFingerprint else []


/-- A target `w` in a target group with `A`, declaring a dependency on `A` only. -/
def cexW : BTarget where
  name := "w".data
  path := "/w".data
  priority := 0
  underlying := [("/A".data, false)]

/-- The fellow group member of `cexW`. -/
def cexA : BTarget where
  name := "A".data
  path := "/A".data
  priority := 0
  underlying := []

/-- The target group holding both `cexW` and `cexA`. -/
def cexGroup : List Str := ["/w".data, "/A".data]

/-- The two-target graph with the shared target group. -/
def cexGraph : Graph where
  targets := [cexW, cexA]
  groups := [("/w".data, cexGroup), ("/A".data, cexGroup)]


/-- A two-target graph with a high-priority dependent: `w` (priority 10) depends on
`A` (priority 1). -/
def prioW : BTarget where
  name := "w".data
  path := "/w".data
  priority := 10
  underlying := [("/A".data, false)]

/-- The low-priority dependency of `prioW`. -/
def prioA : BTarget where
  name := "A".data
  path := "/A".data
  priority := 1
  underlying := []

/-- The graph for the C8 witness. -/
def prioGraph : Graph where
  targets := [prioW, prioA]
  groups := []

/-! ## String lemmas -/

theorem splitSep_ne_nil (sep : Char) (s : Str) : splitSep sep s ≠ [] := by
  induction s with
  | nil => simp [splitSep]
  | cons c rest ih =>
    simp only [splitSep]
    split
    · simp
    · cases h : splitSep sep rest <;> simp

/-- No fragment produced by `splitSep` contains the separator. -/
theorem not_mem_of_mem_splitSep {sep : Char} {s : Str} {f : Str}
    (hf : f ∈ splitSep sep s) : sep ∉ f := by
  induction s generalizing f with
  | nil =>
    simp only [splitSep, List.mem_singleton] at hf
    subst hf; simp
  | cons c rest ih =>
    simp only [splitSep] at hf
    split at hf
    · rcases List.mem_cons.1 hf with h | h
      · subst h; simp
      · exact ih h
    · rename_i hcs
      cases h : splitSep sep rest with
      | nil => exact absurd h (splitSep_ne_nil sep rest)
      | cons r rs =>
        rw [h] at hf
        rcases List.mem_cons.1 hf with h2 | h2
        · subst h2
          intro hmem
          rcases List.mem_cons.1 hmem with h3 | h3
          · exact hcs h3.symm
          · exact ih (h ▸ List.mem_cons_self r rs) h3
        · exact ih (h ▸ List.mem_cons_of_mem r h2)

/-- Splitting a string that does not contain the separator yields just that string. -/
theorem splitSep_of_not_mem {sep : Char} {s : Str} (h : sep ∉ s) :
    splitSep sep s = [s] := by
  induction s with
  | nil => simp [splitSep]
  | cons c rest ih =>
    simp only [List.mem_cons, not_or] at h
    simp only [splitSep, if_neg (Ne.symm h.1), ih h.2]

/-- The separator splits an append: fragments of `xs`, then fragments of `ys`. -/
theorem splitSep_append_sep (sep : Char) (xs ys : Str) :
    splitSep sep (xs ++ sep :: ys) = splitSep sep xs ++ splitSep sep ys := by
  induction xs with
  | nil => simp [splitSep]
  | cons c rest ih =>
    simp only [List.cons_append, splitSep, List.append_eq]
    split
    · rw [ih]
      cases h : splitSep sep rest with
      | nil => exact absurd h (splitSep_ne_nil sep rest)
      | cons r rs => simp
    · rw [ih]
      cases h : splitSep sep rest with
      | nil => exact absurd h (splitSep_ne_nil sep rest)
      | cons r rs => simp

/-- Round trip: joining separator-free lines and re-splitting recovers them
(for a non-empty list of lines). -/
theorem splitSep_joinSep {sep : Char} {l : List Str} (hne : l ≠ [])
    (h : ∀ s ∈ l, sep ∉ s) : splitSep sep (joinSep sep l) = l := by
  induction l with
  | nil => exact absurd rfl hne
  | cons s rest ih =>
    cases rest with
    | nil =>
      simp only [joinSep]
      exact splitSep_of_not_mem (h s (List.mem_cons_self s []))
    | cons t ts =>
      have hjoin : joinSep sep (s :: t :: ts) = s ++ sep :: joinSep sep (t :: ts) := rfl
      rw [hjoin, splitSep_append_sep,
        splitSep_of_not_mem (h s (List.mem_cons_self s (t :: ts))),
        ih (by simp) (fun x hx => h x (List.mem_cons_of_mem s hx))]
      rfl

/-- Joining then splitting equals per-element splitting, for a non-empty list. -/
theorem splitSep_joinSep_flatMap {sep : Char} {l : List Str} (hne : l ≠ []) :
    splitSep sep (joinSep sep l) = l.flatMap (splitSep sep) := by
  induction l with
  | nil => exact absurd rfl hne
  | cons s rest ih =>
    cases rest with
    | nil => simp [joinSep, List.flatMap]
    | cons t ts =>
      have hjoin : joinSep sep (s :: t :: ts) = s ++ sep :: joinSep sep (t :: ts) := rfl
      rw [hjoin, splitSep_append_sep, ih (by simp)]
      simp [List.flatMap]

/-- Every character of `replaceChar c r s` comes from `s` or from `r`. -/
theorem mem_replaceChar {c : Char} {r s : Str} {a : Char}
    (h : a ∈ replaceChar c r s) : a ∈ s ∨ a ∈ r := by
  induction s with
  | nil => simp [replaceChar] at h
  | cons b rest ih =>
    simp only [replaceChar] at h
    split at h
    · rcases List.mem_append.1 h with h2 | h2
      · exact Or.inr h2
      · rcases ih h2 with h3 | h3
        · exact Or.inl (List.mem_cons_of_mem b h3)
        · exact Or.inr h3
    · rcases List.mem_cons.1 h with h2 | h2
      · exact Or.inl (h2 ▸ List.mem_cons_self b rest)
      · rcases ih h2 with h3 | h3
        · exact Or.inl (List.mem_cons_of_mem b h3)
        · exact Or.inr h3

/-- Replacing a character that does not occur is the identity. -/
theorem replaceChar_of_not_mem {c : Char} {r : Str} {s : Str} (h : c ∉ s) :
    replaceChar c r s = s := by
  induction s with
  | nil => rfl
  | cons b rest ih =>
    simp only [List.mem_cons, not_or] at h
    simp only [replaceChar, if_neg (Ne.symm h.1), ih h.2]

/-! ## Fingerprint lemmas -/

/-- The fingerprint always has at least one line: even with no deps and no hashable
inputs, `os.linesep.join([]).split(os.linesep)` contributes `['']`. -/
theorem getImplicitInputs_ne_nil (w : Wrapper) : w.getImplicitInputs ≠ [] := by
  unfold Wrapper.getImplicitInputs
  intro h
  rcases List.append_eq_nil.1 h with ⟨-, h2⟩
  exact splitSep_ne_nil NL _ (List.map_eq_nil_iff.1 h2)

/-- On a line already free of the separator `NL`, the LF-escaping pass of `escapeLine`
is vacuous (CR-escaping cannot introduce an LF), so `escapeLine` is just `escapeCR`. -/
theorem escapeLine_eq_escapeCR {s : Str} (h : NL ∉ s) : escapeLine s = escapeCR s := by
  unfold escapeLine escapeCR
  refine replaceChar_of_not_mem (fun hmem => ?_)
  rcases mem_replaceChar hmem with h2 | h2
  · exact h h2
  · rcases List.mem_cons.1 h2 with h3 | h3
    · exact absurd h3 (by decide)
    · rcases List.mem_cons.1 h3 with h4 | h4
      · exact absurd h4 (by decide)
      · simp at h4

/-! ## List helper lemmas -/

theorem mem_insertDep {acc : List Str} {p q : Str} :
    q ∈ insertDep acc p ↔ q ∈ acc ∨ q = p := by
  unfold insertDep
  split
  · rename_i hmem
    constructor
    · exact Or.inl
    · rintro (h | rfl)
      · exact h
      · exact hmem
  · simp

theorem mem_insSorted {le : α → α → Bool} {x y : α} {l : List α} :
    y ∈ insSorted le x l ↔ y ∈ l ∨ y = x := by
  induction l with
  | nil => simp [insSorted]
  | cons a as ih =>
    unfold insSorted
    split
    · simp only [List.mem_cons]
      tauto
    · simp only [List.mem_cons, ih]
      tauto

theorem mem_sortByKey {le : α → α → Bool} {x : α} {l : List α} :
    x ∈ sortByKey le l ↔ x ∈ l := by
  induction l with
  | nil => simp [sortByKey]
  | cons a as ih =>
    unfold sortByKey
    rw [mem_insSorted, ih]
    simp [or_comm]

theorem length_insSorted (le : α → α → Bool) (x : α) (l : List α) :
    (insSorted le x l).length = l.length + 1 := by
  induction l with
  | nil => rfl
  | cons a as ih =>
    unfold insSorted
    split
    · rfl
    · simp [ih]

theorem length_sortByKey (le : α → α → Bool) (l : List α) :
    (sortByKey le l).length = l.length := by
  induction l with
  | nil => rfl
  | cons a as ih =>
    unfold sortByKey
    rw [length_insSorted, ih, List.length_cons]

theorem assocLookup_mem {l : List (Str × List Str)} {p : Str} {v : List Str}
    (h : assocLookup l p = some v) : (p, v) ∈ l := by
  induction l with
  | nil => simp [assocLookup] at h
  | cons kv rest ih =>
    unfold assocLookup at h
    split at h
    · rename_i hk
      obtain ⟨k2, v2⟩ := kv
      simp only at hk h
      subst hk
      injection h with h
      subst h
      exact List.mem_cons_self _ rest
    · exact List.mem_cons_of_mem kv (ih h)

theorem lookupTarget_eq_self {ts : List BTarget} (hnd : (ts.map BTarget.path).Nodup)
    {b : BTarget} (hb : b ∈ ts) : lookupTarget ts b.path = some b := by
  induction ts with
  | nil => simp at hb
  | cons t rest ih =>
    rw [List.map_cons, List.nodup_cons] at hnd
    unfold lookupTarget
    rcases List.mem_cons.1 hb with rfl | h2
    · rw [if_pos rfl]
    · rw [if_neg, ih hnd.2 h2]
      intro heq
      exact hnd.1 (heq ▸ List.mem_map_of_mem BTarget.path h2)

/-! ## Claim theorems -/

/-- C2 counterexample: for a wrapper whose hashable implicit input `"a\nb"` embeds the
platform line separator, the fingerprint the code computes (`["a", "b"]` — the entry is
split into two lines) differs from the claimed form (`["a\\nb"]` — the LF escaped to a
two-character sequence). -/
theorem C2_counterexample :
    lfWrapper.getImplicitInputs ≠ lfWrapper.claimedImplicitInputs := by decide

/-- C2 (amended): the fingerprint is the target dep paths in order, then the non-target
dep paths in order, then the hashable implicit inputs normalised to lines: each entry is
split on the platform line separator (contributing one fingerprint line per fragment; an
empty entry list contributes a single empty line), and each resulting line has embedded
CR escaped to the two-character sequence `\r`.  No LF can survive the normalisation, so
the LF-escaping pass never fires: an embedded LF acts as a line break instead. -/
theorem C2_implicit_inputs_amended (w : Wrapper) :
    w.getImplicitInputs =
      w.targetdeps.map TargetInfo.path ++ w.nontargetdeps.map Prod.fst ++
        (if w.hashableImplicitInputs = [] then [([] : Str)]
         else w.hashableImplicitInputs.flatMap (fun s => (splitSep NL s).map escapeCR)) := by
  unfold Wrapper.getImplicitInputs
  congr 1
  have hpiece : ∀ s : Str, (splitSep NL s).map escapeLine = (splitSep NL s).map escapeCR :=
    fun s => List.map_congr_left
      (fun piece hp => escapeLine_eq_escapeCR (not_mem_of_mem_splitSep hp))
  split
  · rename_i h
    rw [h]
    rfl
  · rename_i h
    rw [splitSep_joinSep_flatMap h, List.map_flatMap]
    simp only [hpiece]

/-- C3: writing the fingerprint as `run` does (joining the lines with the platform line
separator) and re-reading it as `uptodate` does (splitting the whole file on the
platform line separator) recovers exactly the original line sequence, for every
fingerprint whose lines are free of the separator.  (A fingerprint is never the empty
sequence: the hashable-input normalisation always contributes at least one line.) -/
theorem C3_fingerprint_roundtrip (w : Wrapper)
    (h : ∀ s ∈ w.getImplicitInputs, NL ∉ s) :
    readFingerprint w.writtenFingerprint = w.getImplicitInputs :=
  splitSep_joinSep (getImplicitInputs_ne_nil w) h

/-- C3 witness: the round trip evaluated on a concrete wrapper. -/
theorem C3_witness :
    (∀ s ∈ plainWrapper.getImplicitInputs, NL ∉ s) ∧
      readFingerprint plainWrapper.writtenFingerprint = plainWrapper.getImplicitInputs :=
  ⟨by decide, C3_fingerprint_roundtrip plainWrapper (by decide)⟩

/-- C4: for a wrapper with a non-empty fingerprint or a directory target, `run` deletes
the old implicit-inputs file before invoking `target.run` and writes the fingerprint
only after `target.run` returns successfully: if the recipe raises (and does not itself
create the file, which lives outside the work directory it owns), no implicit-inputs
file exists afterwards; if `run` completes, the file holds exactly the fingerprint
computed at build time. -/
theorem C4_run_fingerprint_file (w : Wrapper) (recipe : FS → FS × Bool) (fs : FS)
    (hfp : (!w.getImplicitInputs.isEmpty || w.isDirPath) = true)
    (hrec : ∀ g : FS, g.stat w.implicitInputsFile = none →
      ((recipe g).1).stat w.implicitInputsFile = none) :
    ((w.run recipe fs).2 = false →
      ((w.run recipe fs).1).stat w.implicitInputsFile = none) ∧
    ((w.run recipe fs).2 = true →
      ((w.run recipe fs).1).contents w.implicitInputsFile = w.writtenFingerprint ∧
      ((w.run recipe fs).1).stat w.implicitInputsFile = some FileKind.regular) := by
  have hdel : (fs.deleteFile w.implicitInputsFile).stat w.implicitInputsFile = none := by
    simp [FS.deleteFile]
  cases hr : (recipe (fs.deleteFile w.implicitInputsFile)).2 with
  | false =>
    have hrun : w.run recipe fs = ((recipe (fs.deleteFile w.implicitInputsFile)).1, false) := by
      simp only [Wrapper.run, hfp, eq_self_iff_true, if_true, hr, Bool.false_eq_true, if_false]
    rw [hrun]
    exact ⟨fun _ => hrec _ hdel, fun hcon => absurd hcon (by simp)⟩
  | true =>
    have hrun : w.run recipe fs =
        (FS.writeFile (recipe (fs.deleteFile w.implicitInputsFile)).1
          (toLongPathSafe w.implicitInputsFile) w.writtenFingerprint, true) := by
      simp only [Wrapper.run, hfp, eq_self_iff_true, if_true, hr]
    rw [hrun]
    refine ⟨fun hcon => absurd hcon (by simp), fun _ => ?_⟩
    unfold FS.writeFile toLongPathSafe
    exact ⟨by simp, by simp⟩

/-- C4 witness: a failing recipe on a concrete wrapper leaves no fingerprint file. -/
theorem C4_witness :
    (!plainWrapper.getImplicitInputs.isEmpty || plainWrapper.isDirPath) = true ∧
      ((plainWrapper.run failingRecipe emptyFS).2 = false →
        ((plainWrapper.run failingRecipe emptyFS).1).stat plainWrapper.implicitInputsFile =
          none) :=
  ⟨by decide,
    (C4_run_fingerprint_file plainWrapper failingRecipe emptyFS (by decide)
      (fun _ h => h)).1⟩

/-- C9: the claim says `findMissingNonTargetDependencies` returns the path of the first
non-target dep that is missing or of the wrong kind.  But when the dep exists with the
wrong kind in a stat-able way — a path declared as a file (no `DEP_IS_DIR_PATH` flag)
at which a *directory* exists — the source instead fails its own sanity assertion
`assert not os.path.exists(dpath)` (targetwrapper.py:245) and raises `AssertionError`
rather than returning the offending path: the assertion contradicts the reachable
input, so the code, not the claim, is wrong.  This theorem evaluates the model at the
failing input. -/
theorem C9_wrong_kind_assertion_fires :
    findMissingNonTargetDependencies dirAtFilePathFS [("/deps/input".data, 0)] =
      Except.error "/deps/input".data := by rfl

/-- C10: constructing a `CustomCommand` with `redirectStdOutToTarget=True` raises a
`BuildException` in the constructor — before the target can ever be run — whenever the
target name is a directory path or a (truthy) `stdout` argument is also supplied. -/
theorem C10_custom_command_checks (target : Str) (stdout : Option Str)
    (h : isDirPath target = true ∨ pyTruthyStr stdout = true) :
    (customCommandInitChecks target true stdout).isSome = true := by
  unfold customCommandInitChecks
  cases hd : isDirPath target with
  | false =>
    rcases h with h | h
    · rw [hd] at h
      exact Bool.noConfusion h
    · simp [hd, h]
  | true => simp [hd]

/-- C10 witness: the check evaluated for a directory target name. -/
theorem C10_witness :
    (isDirPath "/out/dir/".data = true ∨ pyTruthyStr (none : Option Str) = true) ∧
      (customCommandInitChecks "/out/dir/".data true none).isSome = true :=
  ⟨Or.inl (by decide), C10_custom_command_checks "/out/dir/".data none (Or.inl (by decide))⟩

/-! ## Up-to-date oracle lemmas and C1 -/

/-- Step 6 falsifies `uptodate` exactly when some step-6 input is strictly newer than
the stampfile. -/
theorem mtimeChecks_eq_false_iff (fs : FS) (w : Wrapper) :
    w.mtimeChecks fs = false ↔
      ∃ p ∈ w.step6Inputs, fs.mtime w.stampfile < fs.mtime p := by
  have hswap : ∀ (b : Bool) (x y : Str), (if !b then x else y) = if b then y else x := by
    intro b x y
    cases b <;> rfl
  unfold Wrapper.mtimeChecks Wrapper.step6Inputs isNewer
  simp only [hswap, Bool.not_eq_false', Bool.or_eq_true, List.any_eq_true, Bool.and_eq_true,
    decide_eq_true_eq, beq_iff_eq, List.mem_append, List.mem_map, List.mem_filter]
  constructor
  · rintro (⟨d, hd, hlt⟩ | ⟨pr, hpr, hflag, hlt⟩)
    · exact ⟨_, Or.inl ⟨d, hd, rfl⟩, hlt⟩
    · exact ⟨pr.1, Or.inr ⟨pr, ⟨hpr, hflag⟩, rfl⟩, hlt⟩
  · rintro ⟨p, hp | hp, hlt⟩
    · obtain ⟨d, hd, rfl⟩ := hp
      exact Or.inl ⟨d, hd, hlt⟩
    · obtain ⟨pr, ⟨hpr, hflag⟩, rfl⟩ := hp
      exact Or.inr ⟨pr, hpr, hflag, hlt⟩

/-- C1: for a wrapper that reaches step 6 of `uptodate` (not dirty, output path exists,
stampfile is a regular file, implicit-inputs file exists with an unchanged
fingerprint), `uptodate(ctx, False)` returns `False` iff some input's mtime strictly
exceeds the stampfile's mtime — file target deps compared by their `path`, directory
target deps by their `stampfile`, non-target file deps by their own mtime, non-target
directory deps ignored; a sub-second gap still counts (it is only logged as a
warning). -/
theorem C1_uptodate_step6 (w : Wrapper) (fs : FS)
    (h1 : w.isdirty = false)
    (h2 : fs.pathExists w.path = true)
    (h3 : fs.isfile w.stampfile = true)
    (h4 : fs.pathExists w.implicitInputsFile = true)
    (h5 : readFingerprint (fs.contents (toLongPathSafe w.implicitInputsFile)) =
      w.getImplicitInputs) :
    (w.uptodate fs false = false ↔
      ∃ p ∈ w.step6Inputs, fs.mtime w.stampfile < fs.mtime p) := by
  have hfpcond : (!w.getImplicitInputs.isEmpty || w.isDirPath) = true := by
    cases hE : w.getImplicitInputs with
    | nil => exact absurd hE (getImplicitInputs_ne_nil w)
    | cons a l => simp
  have hup : w.uptodate fs false = w.mtimeChecks fs := by
    simp [Wrapper.uptodate, h1, h2, h3, h4, h5, hfpcond]
  rw [hup, mtimeChecks_eq_false_iff]

/-- C1 witness: the oracle evaluated at a concrete stale wrapper. -/
theorem C1_witness :
    (staleWrapper.isdirty = false ∧
      staleFS.pathExists staleWrapper.path = true ∧
      staleFS.isfile staleWrapper.stampfile = true ∧
      staleFS.pathExists staleWrapper.implicitInputsFile = true ∧
      readFingerprint (staleFS.contents (toLongPathSafe staleWrapper.implicitInputsFile)) =
        staleWrapper.getImplicitInputs) ∧
    (staleWrapper.uptodate staleFS false = false ↔
      ∃ p ∈ staleWrapper.step6Inputs,
        staleFS.mtime staleWrapper.stampfile < staleFS.mtime p) :=
  ⟨⟨rfl, by decide, by decide, by decide, by decide⟩,
    C1_uptodate_step6 staleWrapper staleFS rfl (by decide) (by decide) (by decide)
      (by decide)⟩

/-! ## Resolver lemmas and C5/C6/C7 -/

theorem mem_membersFold {p : Str} {members : List Str} {acc : List Str} {q : Str} :
    q ∈ members.foldl (fun acc2 m => if m = p then acc2 else insertDep acc2 m) acc ↔
      q ∈ acc ∨ (q ∈ members ∧ q ≠ p) := by
  induction members generalizing acc with
  | nil => simp
  | cons m ms ih =>
    simp only [List.foldl_cons]
    by_cases hm : m = p
    · rw [if_pos hm, ih]
      subst hm
      constructor
      · rintro (h | ⟨hin, hne⟩)
        · exact Or.inl h
        · exact Or.inr ⟨List.mem_cons_of_mem _ hin, hne⟩
      · rintro (h | ⟨hin, hne⟩)
        · exact Or.inl h
        · rcases List.mem_cons.1 hin with rfl | h2
          · exact absurd rfl hne
          · exact Or.inr ⟨h2, hne⟩
    · rw [if_neg hm, ih]
      constructor
      · rintro (h | ⟨hin, hne⟩)
        · rcases mem_insertDep.1 h with h2 | rfl
          · exact Or.inl h2
          · exact Or.inr ⟨List.mem_cons_self _ _, hm⟩
        · exact Or.inr ⟨List.mem_cons_of_mem _ hin, hne⟩
      · rintro (h | ⟨hin, hne⟩)
        · exact Or.inl (mem_insertDep.2 (Or.inl h))
        · rcases List.mem_cons.1 hin with rfl | h2
          · exact Or.inl (mem_insertDep.2 (Or.inr rfl))
          · exact Or.inr ⟨h2, hne⟩

theorem groupStep_none {g : Graph} {p : Str} (h : g.findGroup p = none) (acc : List Str) :
    groupStep g acc p = acc := by
  simp [groupStep, h]

theorem groupStep_some {g : Graph} {p : Str} {members : List Str}
    (h : g.findGroup p = some members) (acc : List Str) :
    groupStep g acc p =
      members.foldl (fun acc2 m => if m = p then acc2 else insertDep acc2 m) acc := by
  simp [groupStep, h]

theorem mem_groupFold {g : Graph} {q : Str} :
    ∀ (L acc : List Str),
      (q ∈ L.foldl (groupStep g) acc ↔
        q ∈ acc ∨ ∃ p ∈ L, ∃ G, g.findGroup p = some G ∧ q ∈ G ∧ q ≠ p) := by
  intro L
  induction L with
  | nil => intro acc; simp
  | cons p0 ps ih =>
    intro acc
    rw [List.foldl_cons]
    cases hG : g.findGroup p0 with
    | none =>
      rw [groupStep_none hG, ih]
      constructor
      · rintro (h | ⟨p, hp, G, hfind, hq, hne⟩)
        · exact Or.inl h
        · exact Or.inr ⟨p, List.mem_cons_of_mem _ hp, G, hfind, hq, hne⟩
      · rintro (h | ⟨p, hp, G, hfind, hq, hne⟩)
        · exact Or.inl h
        · rcases List.mem_cons.1 hp with rfl | hp2
          · rw [hG] at hfind
            exact absurd hfind (by simp)
          · exact Or.inr ⟨p, hp2, G, hfind, hq, hne⟩
    | some members =>
      rw [groupStep_some hG, ih, mem_membersFold]
      constructor
      · rintro ((h | ⟨hin, hne⟩) | ⟨p, hp, G, hfind, hq, hne⟩)
        · exact Or.inl h
        · exact Or.inr ⟨p0, List.mem_cons_self _ _, members, hG, hin, hne⟩
        · exact Or.inr ⟨p, List.mem_cons_of_mem _ hp, G, hfind, hq, hne⟩
      · rintro (h | ⟨p, hp, G, hfind, hq, hne⟩)
        · exact Or.inl (Or.inl h)
        · rcases List.mem_cons.1 hp with rfl | hp2
          · rw [hG] at hfind
            injection hfind with hf
            subst hf
            exact Or.inl (Or.inr ⟨hq, hne⟩)
          · exact Or.inr ⟨p, hp2, G, hfind, hq, hne⟩

/-- Membership in the registered (pre-pruning) target deps: a declared target dep, or a
group sibling of one. -/
theorem mem_registeredDeps {g : Graph} {w : BTarget} {q : Str} :
    q ∈ registeredDeps g w ↔
      q ∈ (resolveStep1 g w).1 ∨
        ∃ p ∈ (resolveStep1 g w).1, ∃ G, g.findGroup p = some G ∧ q ∈ G ∧ q ≠ p := by
  unfold registeredDeps groupExpand
  exact mem_groupFold _ _

/-- Membership in the final resolved target deps. -/
theorem mem_resolvedTargetDeps {g : Graph} {w : BTarget} {q : Str} :
    q ∈ resolvedTargetDeps g w ↔
      ((q ∈ (resolveStep1 g w).1 ∨
        ∃ p ∈ (resolveStep1 g w).1, ∃ G, g.findGroup p = some G ∧ q ∈ G) ∧
       q ≠ w.path) := by
  unfold resolvedTargetDeps prunedDeps
  rw [mem_sortByKey, List.mem_filter, mem_registeredDeps]
  simp only [decide_eq_true_eq]
  constructor
  · rintro ⟨h | ⟨p, hp, G, hfind, hq, hne⟩, hqne⟩
    · exact ⟨Or.inl h, hqne⟩
    · exact ⟨Or.inr ⟨p, hp, G, hfind, hq⟩, hqne⟩
  · rintro ⟨h | ⟨p, hp, G, hfind, hq⟩, hqne⟩
    · exact ⟨Or.inl h, hqne⟩
    · by_cases hqp : q = p
      · subst hqp
        exact ⟨Or.inl hp, hqne⟩
      · exact ⟨Or.inr ⟨p, hp, G, hfind, hq, hqp⟩, hqne⟩

/-- C7: after resolution a wrapper is never among its own target deps — whether the
self-edge came from the declared dependencies or from target-group expansion, it is
pruned — and `depcount` equals the number of remaining target deps. -/
theorem C7_no_self_dep (g : Graph) (w : BTarget) :
    w.path ∉ resolvedTargetDeps g w ∧ g.depcount w = (resolvedTargetDeps g w).length := by
  constructor
  · intro hmem
    exact absurd rfl (mem_resolvedTargetDeps.1 hmem).2
  · unfold Graph.depcount resolvedTargetDeps
    rw [length_sortByKey]

/-- C5 counterexample: the group `{/w, /A}` has the member `/A` in
`targetDeps(w)` after resolution, yet its member `/w` (the depending wrapper itself,
whose self-edge was pruned) is not — so "if any member of G is in w.targetDeps then
every member of G is" fails. -/
theorem C5_counterexample :
    cexGraph.findGroup "/A".data = some cexGroup ∧
      "/A".data ∈ resolvedTargetDeps cexGraph cexW ∧
      "/w".data ∈ cexGroup ∧
      "/w".data ∉ resolvedTargetDeps cexGraph cexW := by decide

/-- C5 (amended): after resolution, `targetDeps(w)` is exactly the declared target
dependencies together with every member of a target group shared with a declared
dependency, **minus `w` itself**; consequently group closure holds for every member
except possibly `w`: if any member of a group `G` is in `targetDeps(w)`, then every
member of `G` other than `w` is.  (Group maps are consistent — every member of a
recorded group keys that same group — and only name declared targets, else resolution
raises `KeyError`.) -/
theorem C5_targetDeps_closure (g : Graph) (w : BTarget)
    (hcons : groupsConsistent g) (_hdecl : groupMembersDeclared g) :
    (∀ q, q ∈ resolvedTargetDeps g w ↔
      ((q ∈ (resolveStep1 g w).1 ∨
        ∃ p ∈ (resolveStep1 g w).1, ∃ G, g.findGroup p = some G ∧ q ∈ G) ∧
       q ≠ w.path)) ∧
    (∀ p G, g.findGroup p = some G → ∀ m ∈ G, m ∈ resolvedTargetDeps g w →
      ∀ m2 ∈ G, m2 ≠ w.path → m2 ∈ resolvedTargetDeps g w) := by
  refine ⟨fun q => mem_resolvedTargetDeps, ?_⟩
  intro p G hfind m hm hmem m2 hm2 hm2ne
  have hGmem : (p, G) ∈ g.groups := assocLookup_mem hfind
  have hmG : g.findGroup m = some G := hcons (p, G) hGmem m hm
  rcases (mem_resolvedTargetDeps.1 hmem).1 with hD | ⟨p2, hp2, G2, hfind2, hq2⟩
  · exact mem_resolvedTargetDeps.2 ⟨Or.inr ⟨m, hD, G, hmG, hm2⟩, hm2ne⟩
  · have hG2mem : (p2, G2) ∈ g.groups := assocLookup_mem hfind2
    have hmG2 : g.findGroup m = some G2 := hcons (p2, G2) hG2mem m hq2
    have hGeq : G2 = G := by
      have := hmG2.symm.trans hmG
      injection this
    subst hGeq
    exact mem_resolvedTargetDeps.2 ⟨Or.inr ⟨p2, hp2, G2, hfind2, hm2⟩, hm2ne⟩

/-- C5 witness: group closure evaluated on the concrete two-target graph. -/
theorem C5_witness :
    groupsConsistent cexGraph ∧ groupMembersDeclared cexGraph ∧
      (∀ p G, cexGraph.findGroup p = some G → ∀ m ∈ G,
        m ∈ resolvedTargetDeps cexGraph cexW →
        ∀ m2 ∈ G, m2 ≠ cexW.path → m2 ∈ resolvedTargetDeps cexGraph cexW) :=
  ⟨by decide, by decide,
    (C5_targetDeps_closure cexGraph cexW (by decide) (by decide)).2⟩

/-- Two targets of a path-deduplicated graph with the same output path are equal. -/
theorem eq_of_path_eq {g : Graph} (hnd : pathsNodup g) {t u : BTarget}
    (ht : t ∈ g.targets) (hu : u ∈ g.targets) (h : t.path = u.path) : t = u := by
  have hinj := List.inj_on_of_nodup_map (f := BTarget.path) hnd
  exact hinj ht hu h

/-- C6 counterexample: for the wrapper `w` of the shared target group, group expansion
registered `w` in its own `rdeps` (the `__rdep` call happens before the self-edge is
pruned from `targetdeps`), so `w ∈ rdeps(w)` while `w ∉ targetDeps(w)`: the claimed
equivalence fails for the pair `a = b = w`. -/
theorem C6_counterexample :
    ¬("/w".data ∈ resolvedTargetDeps cexGraph cexW ↔
      "/w".data ∈ cexGraph.rdepPaths "/w".data) := by decide

/-- C6 (amended): after all wrappers resolve, for every pair of **distinct** wrappers
`a ≠ b` (by output path): `b ∈ targetDeps(a)` iff `a ∈ rdeps(b)`.  (The equivalence can
only fail on the diagonal, where a pruned self-edge leaves a stale reverse edge.) -/
theorem C6_rdeps_symmetry (g : Graph) (a b : BTarget)
    (ha : a ∈ g.targets) (_hb : b ∈ g.targets) (hnd : pathsNodup g)
    (hne : a.path ≠ b.path) :
    (b.path ∈ resolvedTargetDeps g a ↔ a.path ∈ g.rdepPaths b.path) := by
  unfold Graph.rdepPaths
  constructor
  · intro hmem
    have hreg : b.path ∈ registeredDeps g a := by
      unfold resolvedTargetDeps prunedDeps at hmem
      rw [mem_sortByKey, List.mem_filter] at hmem
      exact hmem.1
    exact List.mem_map.2 ⟨a, List.mem_filter.2 ⟨ha, by simpa using hreg⟩, rfl⟩
  · intro hmem
    rcases List.mem_map.1 hmem with ⟨t, ht, hpath⟩
    rcases List.mem_filter.1 ht with ⟨htg, hreg⟩
    have hta : t = a := eq_of_path_eq hnd htg ha hpath
    subst hta
    unfold resolvedTargetDeps prunedDeps
    rw [mem_sortByKey, List.mem_filter]
    exact ⟨by simpa using hreg, by simpa using Ne.symm hne⟩

/-- C6 witness: the equivalence evaluated for the distinct pair `(w, A)`. -/
theorem C6_witness :
    (cexW ∈ cexGraph.targets ∧ cexA ∈ cexGraph.targets ∧ pathsNodup cexGraph ∧
      cexW.path ≠ cexA.path) ∧
      (cexA.path ∈ resolvedTargetDeps cexGraph cexW ↔
        cexW.path ∈ cexGraph.rdepPaths cexA.path) :=
  ⟨⟨by decide, by decide, by decide, by decide⟩,
    C6_rdeps_symmetry cexGraph cexW cexA (by decide) (by decide) (by decide) (by decide)⟩

/-! ## Priority push lemmas and C8 -/

/-- Behaviour of one `for dt in deps` loop (given the four inductive facts about the
recursive call): final values dominate initial ones, every dep ends at least at the
snapshot priority `tp`, settledness is preserved, and any node whose value rose ends
settled. -/
theorem pushLoop_spec (g : Graph) (recFn : Str → PrioMap → Option PrioMap)
    (hrecMono : ∀ w S S2, recFn w S = some S2 → ∀ q, S q ≤ S2 q)
    (hrecPush : ∀ w S S2, recFn w S = some S2 → ∀ d ∈ g.depsOf w, S w ≤ S2 d)
    (hrecKeep : ∀ w S S2, recFn w S = some S2 → ∀ x, Settled g S x → Settled g S2 x)
    (hrecNew : ∀ w S S2, recFn w S = some S2 → ∀ x, S x < S2 x → Settled g S2 x)
    (tp : Int) :
    ∀ (ds : List Str) (S S2 : PrioMap), pushLoop recFn tp ds S = some S2 →
      (∀ q, S q ≤ S2 q) ∧ (∀ d ∈ ds, tp ≤ S2 d) ∧
      (∀ x, Settled g S x → Settled g S2 x) ∧ (∀ x, S x < S2 x → Settled g S2 x) := by
  intro ds
  induction ds with
  | nil =>
    intro S S2 h
    unfold pushLoop at h
    injection h with h
    subst h
    exact ⟨fun q => le_refl _, by simp, fun x hx => hx, fun x hlt => absurd hlt (lt_irrefl _)⟩
  | cons d ds ih =>
    intro S S2 h
    unfold pushLoop at h
    split at h
    · rename_i hgt
      split at h
      · exact absurd h (by simp)
      · rename_i Smid hcall
        obtain ⟨ihMono, ihB, ihKeep, ihNew⟩ := ih Smid S2 h
        have hS1d : (fun q => if q = d then tp else S q) d = tp := by simp
        have hS1mono : ∀ q, S q ≤ (fun q => if q = d then tp else S q) q := by
          intro q
          by_cases hq : q = d
          · subst hq
            simp only [if_pos rfl]
            exact le_of_lt hgt
          · simp [hq]
        have hmidMono : ∀ q, (fun q => if q = d then tp else S q) q ≤ Smid q :=
          hrecMono _ _ _ hcall
        have hdSettled : Settled g Smid d := by
          rcases lt_or_eq_of_le (hmidMono d) with hlt | heq
          · exact hrecNew _ _ _ hcall d hlt
          · intro e he
            rw [← heq]
            exact hrecPush _ _ _ hcall e he
        refine ⟨?_, ?_, ?_, ?_⟩
        · intro q
          exact le_trans (hS1mono q) (le_trans (hmidMono q) (ihMono q))
        · intro e he
          rcases List.mem_cons.1 he with rfl | he2
          · calc tp = (fun q => if q = e then tp else S q) e := by simp
              _ ≤ Smid e := hmidMono e
              _ ≤ S2 e := ihMono e
          · exact ihB e he2
        · intro x hx
          by_cases hxd : x = d
          · subst hxd
            exact ihKeep x hdSettled
          · have h1 : Settled g (fun q => if q = d then tp else S q) x := by
              intro e he
              simp only [if_neg hxd]
              exact le_trans (hx e he) (hS1mono e)
            exact ihKeep x (hrecKeep _ _ _ hcall x h1)
        · intro x hlt
          by_cases hmid2 : Smid x < S2 x
          · exact ihNew x hmid2
          · have hS2eq : S2 x = Smid x := le_antisymm (not_lt.1 hmid2) (ihMono x)
            by_cases h1mid : (fun q => if q = d then tp else S q) x < Smid x
            · exact ihKeep x (hrecNew _ _ _ hcall x h1mid)
            · have hmideq : Smid x = (fun q => if q = d then tp else S q) x :=
                le_antisymm (not_lt.1 h1mid) (hmidMono x)
              by_cases hxd : x = d
              · subst hxd
                exact ihKeep x hdSettled
              · exfalso
                have hSeq : (fun q => if q = d then tp else S q) x = S x := by
                  simp [hxd]
                rw [hS2eq, hmideq, hSeq] at hlt
                exact lt_irrefl _ hlt
    · rename_i hle
      obtain ⟨ihMono, ihB, ihKeep, ihNew⟩ := ih S S2 h
      refine ⟨ihMono, ?_, ihKeep, ihNew⟩
      intro e he
      rcases List.mem_cons.1 he with rfl | he2
      · exact le_trans (not_lt.1 hle) (ihMono e)
      · exact ihB e he2

/-- The four inductive facts hold of `updatePriority` at every fuel level. -/
theorem updatePriority_spec (g : Graph) :
    ∀ fuel w S S2, updatePriority g fuel w S = some S2 →
      (∀ q, S q ≤ S2 q) ∧ (∀ d ∈ g.depsOf w, S w ≤ S2 d) ∧
      (∀ x, Settled g S x → Settled g S2 x) ∧ (∀ x, S x < S2 x → Settled g S2 x) := by
  intro fuel
  induction fuel with
  | zero =>
    intro w S S2 h
    exact absurd h (by simp [updatePriority])
  | succ fuel ih =>
    intro w S S2 h
    unfold updatePriority at h
    split at h
    · rename_i hempty
      injection h with h
      subst h
      have hdeps : g.depsOf w = [] := List.isEmpty_iff.1 hempty
      refine ⟨fun q => le_refl _, ?_, fun x hx => hx, fun x hlt => absurd hlt (lt_irrefl _)⟩
      rw [hdeps]
      simp
    · exact pushLoop_spec g (updatePriority g fuel)
        (fun w2 S3 S4 h2 => (ih w2 S3 S4 h2).1)
        (fun w2 S3 S4 h2 => (ih w2 S3 S4 h2).2.1)
        (fun w2 S3 S4 h2 => (ih w2 S3 S4 h2).2.2.1)
        (fun w2 S3 S4 h2 => (ih w2 S3 S4 h2).2.2.2)
        (S w) (g.depsOf w) S S2 h

/-- After a completed `updatePriority` call on `w`, `w` is settled. -/
theorem updatePriority_settles (g : Graph) {fuel : Nat} {w : Str} {S S2 : PrioMap}
    (h : updatePriority g fuel w S = some S2) : Settled g S2 w := by
  obtain ⟨hm, hb, -, hn⟩ := updatePriority_spec g fuel w S S2 h
  rcases lt_or_eq_of_le (hm w) with hlt | heq
  · exact hn w hlt
  · intro e he
    rw [← heq]
    exact hb e he

theorem passFold_none (g : Graph) (fuel : Nat) :
    ∀ L : List BTarget, L.foldl (passStep g fuel) none = none := by
  intro L
  induction L with
  | nil => rfl
  | cons t ts ih =>
    rw [List.foldl_cons]
    exact ih

/-- Through the whole pre-pass fold: values only rise, settledness is preserved, and
every processed wrapper ends settled. -/
theorem passFold_spec (g : Graph) (fuel : Nat) :
    ∀ (L : List BTarget) (S S2 : PrioMap),
      L.foldl (passStep g fuel) (some S) = some S2 →
      (∀ q, S q ≤ S2 q) ∧ (∀ x, Settled g S x → Settled g S2 x) ∧
      (∀ t ∈ L, Settled g S2 t.path) := by
  intro L
  induction L with
  | nil =>
    intro S S2 h
    injection h with h
    subst h
    exact ⟨fun q => le_refl _, fun x hx => hx, by simp⟩
  | cons t ts ih =>
    intro S S2 h
    rw [List.foldl_cons] at h
    have h2 : ts.foldl (passStep g fuel) (updatePriority g fuel t.path S) = some S2 := h
    cases hcall : updatePriority g fuel t.path S with
    | none =>
      rw [hcall, passFold_none] at h2
      exact absurd h2 (by simp)
    | some Smid =>
      rw [hcall] at h2
      obtain ⟨ihm, ihk, ihall⟩ := ih Smid S2 h2
      obtain ⟨cm, -, ck, -⟩ := updatePriority_spec g fuel t.path S Smid hcall
      refine ⟨fun q => le_trans (cm q) (ihm q), fun x hx => ihk x (ck x hx), ?_⟩
      intro u hu
      rcases List.mem_cons.1 hu with rfl | hu2
      · exact ihk u.path (updatePriority_settles g hcall)
      · exact ihall u hu2

/-- C8: once `updatePriority` has been run for every wrapper (the single-threaded
priority push, here with explicit fuel; `some` certifies the pass completed), every
edge `a → b` (where `b` depends on `a`) satisfies
`effectivePriority(a) ≥ effectivePriority(b)`, and every wrapper's effective priority
is at least its declared priority. -/
theorem C8_priority_push (g : Graph) (fuel : Nat) (S2 : PrioMap)
    (hnd : pathsNodup g) (h : runPriorityPass g fuel = some S2) :
    (∀ b ∈ g.targets, ∀ a ∈ resolvedTargetDeps g b, S2 b.path ≤ S2 a) ∧
    (∀ w ∈ g.targets, w.priority ≤ S2 w.path) := by
  unfold runPriorityPass at h
  obtain ⟨hm, -, hall⟩ := passFold_spec g fuel g.targets (initPriorities g) S2 h
  constructor
  · intro b hb a ha
    have hset := hall b hb
    have hdeps : g.depsOf b.path = resolvedTargetDeps g b := by
      unfold Graph.depsOf
      rw [lookupTarget_eq_self hnd hb]
    exact hset a (hdeps ▸ ha)
  · intro w hw
    have hinit : initPriorities g w.path = w.priority := by
      unfold initPriorities
      rw [lookupTarget_eq_self hnd hw]
    calc w.priority = initPriorities g w.path := hinit.symm
      _ ≤ S2 w.path := hm w.path

/-- C8 witness: the completed pass on the concrete graph satisfies both bounds. -/
theorem C8_witness :
    pathsNodup prioGraph ∧
      runPriorityPass prioGraph 5 = some ((runPriorityPass prioGraph 5).getD (fun _ => 0)) ∧
      ((∀ b ∈ prioGraph.targets, ∀ a ∈ resolvedTargetDeps prioGraph b,
          ((runPriorityPass prioGraph 5).getD (fun _ => 0)) b.path ≤
            ((runPriorityPass prioGraph 5).getD (fun _ => 0)) a) ∧
        (∀ w ∈ prioGraph.targets, w.priority ≤
          ((runPriorityPass prioGraph 5).getD (fun _ => 0)) w.path)) :=
  ⟨by decide, rfl,
    C8_priority_push prioGraph 5 ((runPriorityPass prioGraph 5).getD (fun _ => 0))
      (by decide) rfl⟩

end XpyBuild
